import Mathlib

/-!
Shallow embedding of the Discord guild bot (Test1.py): the per-guild value
ledger, the magnitude-string value parser, the raid-event sign-up state
machine, the countdown notifier loop, and the loot-split tracker, together
with theorems about the behaviour the specification describes.

Python dicts are embedded as association lists (unique keys, insertion
order) with the usual lookup / insert-or-replace / pop / in-place-modify
operations; the SQLite `player_values` table is embedded as a key-value
store whose only observers are the helper functions of the source.
Numeric values (Python floats) are embedded as rationals: every arithmetic
operation the claims exercise is exact in IEEE double precision, and the
float-specific behaviours (exponent literals, inf/nan) are outside the
inputs considered here.
-/

/-- Python dict lookup `d.get(k)`: the value stored under `k`, if any. -/
def pyDictGet {κ α : Type} [DecidableEq κ] : List (κ × α) → κ → Option α
  | [], _ => none
  | p :: d, k => if p.1 = k then some p.2 else pyDictGet d k

/-- Python `del d[k]` / `d.pop(k, None)`: drop the entry stored under `k`. -/
def pyDictPop {κ α : Type} [DecidableEq κ] : List (κ × α) → κ → List (κ × α)
  | [], _ => []
  | p :: d, k => if p.1 = k then pyDictPop d k else p :: pyDictPop d k

/-- Python dict assignment `d[k] = v`: replace the entry in place when the key
is present, otherwise append a fresh entry (insertion order). -/
def pyDictSet {κ α : Type} [DecidableEq κ] (d : List (κ × α)) (k : κ) (v : α) :
    List (κ × α) :=
  if (pyDictGet d k).isSome then
    d.map (fun p => if p.1 = k then (k, v) else p)
  else
    d ++ [(k, v)]

/-- Python in-place mutation `d[k].field = ...`: rewrite the value under `k`. -/
def pyDictModify {κ α : Type} [DecidableEq κ] (d : List (κ × α)) (k : κ)
    (f : α → α) : List (κ × α) :=
  d.map (fun p => if p.1 = k then (p.1, f p.2) else p)

/-! ## Ledger Store (`player_values` table) -/

/-- The per-guild ledger: rows of the `player_values` table. -/
def Ledger : Type := List (Int × ℚ)

/-- SELECT total_value FROM player_values WHERE player_id = ?, defaulting to 0
when the row is absent (`result[0] if result else 0`). -/
def get_player_value (db : Ledger) (player_id : Int) : ℚ :=
  match pyDictGet db player_id with
  | some v => v
  | none => 0

/-- INSERT OR REPLACE INTO player_values: store `new_value` under the primary
key `player_id`, replacing any existing row. -/
def update_player_value (db : Ledger) (player_id : Int) (new_value : ℚ) : Ledger :=
  pyDictPop db player_id ++ [(player_id, new_value)]

/-- UPDATE player_values SET total_value = 0 WHERE player_id = ?. -/
def reset_player_value (db : Ledger) (player_id : Int) : Ledger :=
  db.map (fun r => if r.1 = player_id then (r.1, (0 : ℚ)) else r)

/-- add_to_player_value: read the current value and store current + amount. -/
def add_to_player_value (db : Ledger) (player_id : Int) (amount : ℚ) : Ledger :=
  update_player_value db player_id (get_player_value db player_id + amount)

/-- remove_from_player_value: read the current value and store
`max(current - amount, 0)`. -/
def remove_from_player_value (db : Ledger) (player_id : Int) (amount : ℚ) : Ledger :=
  update_player_value db player_id (max (get_player_value db player_id - amount) 0)

/-! ## Value Formatter/Parser (`parse_value`) -/

/-- Python `str.lower()` (character-wise ASCII lowering). -/
def pyLower (s : String) : String := String.mk (s.toList.map Char.toLower)

/-- Python `str.endswith(c)` for a one-character suffix. -/
def pyEndsWith (s : String) (c : Char) : Bool := decide (s.toList.getLast? = some c)

/-- Python slicing `s[:-1]`. -/
def pyDropLast (s : String) : String := String.mk s.toList.dropLast

/-- Decimal digit-run evaluator behind `float(...)`. -/
def digitsValAux : List Char → Nat → Option Nat
  | [], acc => some acc
  | c :: cs, acc =>
    if c.isDigit then digitsValAux cs (10 * acc + (c.toNat - 48)) else none

/-- Value of a non-empty all-digit run, `none` otherwise. -/
def digitsVal (l : List Char) : Option Nat :=
  match l with
  | [] => none
  | _ => digitsValAux l 0

/-- Unsigned decimal literal accepted by Python `float(...)`: digits with an
optional single point, at least one digit overall (`"1"`, `"2.5"`, `"1."`,
`".5"`); anything else is a `ValueError`.  Exponent forms and `inf`/`nan`
are outside the inputs this development considers. -/
def parseUnsignedDec (l : List Char) : Option ℚ :=
  let ip := l.takeWhile (fun c => decide (c ≠ '.'))
  match l.dropWhile (fun c => decide (c ≠ '.')) with
  | [] => (digitsVal ip).map (fun n => (n : ℚ))
  | _ :: fp =>
    if fp.contains '.' then none
    else
      match ip, fp with
      | [], [] => none
      | [], _ => (digitsVal fp).map (fun f => (f : ℚ) / (10 : ℚ) ^ fp.length)
      | _, [] => (digitsVal ip).map (fun n => (n : ℚ))
      | _, _ =>
        match digitsVal ip, digitsVal fp with
        | some i, some f => some ((i : ℚ) + (f : ℚ) / (10 : ℚ) ^ fp.length)
        | _, _ => none

/-- Python `float(s)` restricted to plain signed decimal literals, returning
`none` where `float` raises `ValueError`. -/
def pyFloat (s : String) : Option ℚ :=
  match s.toList with
  | '-' :: rest => (parseUnsignedDec rest).map (fun q => -q)
  | '+' :: rest => parseUnsignedDec rest
  | l => parseUnsignedDec l

/-- parse_value: lower-case the input, then multiply the numeric prefix by
1000 for a `k` suffix, by 1000000 for an `m` suffix, else parse it plain;
`None` on a `ValueError`. -/
def parse_value (value_str : String) : Option ℚ :=
  let v := pyLower value_str
  if pyEndsWith v 'k' then (pyFloat (pyDropLast v)).map (fun q => q * 1000)
  else if pyEndsWith v 'm' then (pyFloat (pyDropLast v)).map (fun q => q * 1000000)
  else pyFloat v

/-! ## Event Registry and Sign-up Coordinator

An announced event, as the per-event dict built by the `f2b` / `ff`
commands: the role-slot dict `user_roles` is embedded as its (distinct)
key list `role_labels` plus a slot function, and `active_users_roles` as a
partial map from user to the role they occupy. -/

structure EventState where
  message_id : Option Nat
  channel_id : Nat
  role_labels : List String
  user_roles : String → List String
  active_users_roles : String → Option String
  start_time : Int
  cancelled : Bool

/-- Fresh event as built by the announcement commands: every template role
maps to an empty sign-up list, no user has an active role, not cancelled. -/
def mk_event (template : List String) (channel : Nat) (start : Int) : EventState where
  message_id := none
  channel_id := channel
  role_labels := template
  user_roles := fun _ => []
  active_users_roles := fun _ => none
  start_time := start
  cancelled := false

inductive ToggleResult where
  | unsigned
  | signedUp
  | alreadySignedUp
  | eventCancelled
  | keyError
  deriving DecidableEq

/-- The `for other_role in user_roles: if user in ...: remove(user)` sweep of
the sign-up callbacks, iterating over the dict keys. -/
def sweepErase (labels : List String) (s : String → List String) (u : String) :
    String → List String :=
  labels.foldl (fun acc r => Function.update acc r
    (if u ∈ acc r then (acc r).erase u else acc r)) s

/-- role_signup_callback / signup_callback (the two are verbatim copies): the
slot-toggle executed when a user presses a role button.  Errors if the event
is cancelled; unsigns when the user holds this slot; rejects when the user's
active-role marker is set; otherwise sweeps the user out of every slot list,
appends them to this role's list and sets the marker.  Indexing an absent
role key would raise (`keyError`) as in Python. -/
def role_signup_callback (e : EventState) (role_name user : String) :
    ToggleResult × EventState :=
  if e.cancelled then (.eventCancelled, e)
  else if role_name ∈ e.role_labels then
    if user ∈ e.user_roles role_name then
      (.unsigned,
        { e with
          user_roles := Function.update e.user_roles role_name
            ((e.user_roles role_name).erase user)
          active_users_roles := Function.update e.active_users_roles user none })
    else if (e.active_users_roles user).isSome then
      (.alreadySignedUp, e)
    else
      (.signedUp,
        { e with
          user_roles := Function.update (sweepErase e.role_labels e.user_roles user)
            role_name
            (sweepErase e.role_labels e.user_roles user role_name ++ [user])
          active_users_roles := Function.update e.active_users_roles user
            (some role_name) })
  else (.keyError, e)

/-- Modelled from the spec: the slot-toggle algorithm as the claim words it —
unsign when occupying this slot; fail with `alreadySignedUp` when occupying
any other slot; else append and set the marker. -/
def toggle_slot_spec (e : EventState) (role_name user : String) :
    ToggleResult × EventState :=
  if user ∈ e.user_roles role_name then
    (.unsigned,
      { e with
        user_roles := Function.update e.user_roles role_name
          ((e.user_roles role_name).erase user)
        active_users_roles := Function.update e.active_users_roles user none })
  else if ∃ r ∈ e.role_labels, r ≠ role_name ∧ user ∈ e.user_roles r then
    (.alreadySignedUp, e)
  else
    (.signedUp,
      { e with
        user_roles := Function.update e.user_roles role_name
          (e.user_roles role_name ++ [user])
        active_users_roles := Function.update e.active_users_roles user
          (some role_name) })

/-- Consistency of the active-role marker with the slot lists: the marker
points exactly at the slot the user occupies. -/
def Consistent (e : EventState) : Prop :=
  (∀ u r, e.active_users_roles u = some r → r ∈ e.role_labels ∧ u ∈ e.user_roles r) ∧
  (∀ u r, r ∈ e.role_labels → u ∈ e.user_roles r → e.active_users_roles u = some r)

/-- Total number of occurrences of user `u` across the slot lists. -/
def sumCount (labels : List String) (s : String → List String) (u : String) : Nat :=
  (labels.map (fun r => (s r).count u)).sum

/-- Total occurrences of a user across an event's role slots. -/
def occ_total (e : EventState) (u : String) : Nat :=
  sumCount e.role_labels e.user_roles u

/-- States of an event reachable from creation by any sequence of slot
toggles (the announcement templates have pairwise-distinct role names, and
a Python dict has unique keys in any case). -/
inductive ReachableEvent : EventState → Prop where
  | created (template : List String) (channel : Nat) (start : Int)
      (hnd : template.Nodup) : ReachableEvent (mk_event template channel start)
  | toggled (e : EventState) (role user : String) (h : ReachableEvent e) :
      ReachableEvent (role_signup_callback e role user).2

/-! ## Countdown Notifier (`track_event_time`)

The 60-second polling loop of both announcement cogs, embedded over the
sequence of its poll observations: each poll sees the current time and the
value of its cancellation check.  The loop breaks with no message on an
observed cancellation, sends the start message and breaks once remaining
time is at most 0, and sends the five-minute reminder once when remaining
time is at most 300 seconds, latching `five_minute_reminder_sent`. -/

inductive NotifyMsg where
  | reminder
  | start
  deriving DecidableEq

def track_event_time (event_start_time : Int) :
    List (Int × Bool) → Bool → List NotifyMsg
  | [], _ => []
  | (now, cancelled_obs) :: polls, five_minute_reminder_sent =>
    if cancelled_obs then []
    else if event_start_time - now ≤ 0 then [NotifyMsg.start]
    else if event_start_time - now ≤ 300 ∧ five_minute_reminder_sent = false then
      NotifyMsg.reminder :: track_event_time event_start_time polls true
    else track_event_time event_start_time polls five_minute_reminder_sent

/-! ## Event cancellation and what the countdown loop observes

`cancel_event_callback` (the authorized path): sets the event's `cancelled`
flag and then immediately deletes the event from `active_events` and its
entry from `message_id_to_event_id`.  The RaidAnnouncement countdown polls
`self.active_events.get(event_id, {}).get('cancelled', False)`, which reads
the default `False` once the entry has been deleted; the FFAnnouncement
countdown indexes `active_events[event_id]` directly, which raises a
`KeyError` once the entry has been deleted. -/

structure RAState where
  active_events : List (Nat × EventState)
  message_id_to_event_id : List (Nat × Nat)

inductive CancelResult where
  | eventNotFound
  | cancelledOk
  deriving DecidableEq

def cancel_event_callback (st : RAState) (message_id : Nat) :
    CancelResult × RAState :=
  match pyDictGet st.message_id_to_event_id message_id with
  | none => (.eventNotFound, st)
  | some event_id =>
    if (pyDictGet st.active_events event_id).isSome then
      (.cancelledOk,
        { active_events :=
            pyDictPop
              (pyDictModify st.active_events event_id
                (fun e => { e with cancelled := true }))
              event_id,
          message_id_to_event_id := pyDictPop st.message_id_to_event_id message_id })
    else (.cancelledOk, st)

/-- The cancellation check of `RaidAnnouncement.track_event_time`:
`self.active_events.get(event_id, \x7b\x7d).get('cancelled', False)`. -/
def observe_cancelled (st : RAState) (event_id : Nat) : Bool :=
  match pyDictGet st.active_events event_id with
  | some e => e.cancelled
  | none => false

/-- The cancellation check of the module-level `track_event_time` used by
FFAnnouncement: `active_events[event_id]['cancelled']`, raising on a missing
key. -/
def ff_cancel_check (st : RAState) (event_id : Nat) : Except Unit Bool :=
  match pyDictGet st.active_events event_id with
  | some e => .ok e.cancelled
  | none => .error ()

/-- Concrete registry for the C2 scenario: one f2b event (id 1, announcement
message 10, start time 1000) in its registry. -/
def ra_state_c2 : RAState :=
  { active_events := [(1, { mk_event ["Tank"] 5 1000 with message_id := some 10 })],
    message_id_to_event_id := [(10, 1)] }

/-! ## Loot-Split Coordinator (`SplitTracker`)

`tagged_members` maps a channel/thread id to the split bookkeeping: per
tagged member a `{'submitted', 'image_count', 'value_added'}` record (a
Python dict comprehension, so duplicate mentions collapse to one key), and
the per-member share `worth`.  `tracked_message_ids` maps the channel id to
the status-embed message id. -/

structure PlayerInfo where
  submitted : Bool
  image_count : Nat
  value_added : Bool
  deriving DecidableEq

structure SplitData where
  players : List (Int × PlayerInfo)
  worth : ℚ
  deriving DecidableEq

structure SplitTrackerState where
  tagged_members : List (Int × SplitData)
  tracked_message_ids : List (Int × Nat)
  deriving DecidableEq

inductive PyRes where
  | ok
  | raisedKeyError
  deriving DecidableEq

/-- The crediting loop of `finalize_split`: for each participant with
`submitted` and not `value_added`, add the share to the ledger and set
`value_added` in the same step. -/
def credit_participants :
    List (Int × PlayerInfo) → ℚ → Ledger → List (Int × PlayerInfo) × Ledger
  | [], _, db => ([], db)
  | (player, info) :: rest, worth, db =>
    if info.submitted = true ∧ info.value_added = false then
      ((player, { info with value_added := true }) ::
          (credit_participants rest worth (add_to_player_value db player worth)).1,
        (credit_participants rest worth (add_to_player_value db player worth)).2)
    else
      ((player, info) :: (credit_participants rest worth db).1,
        (credit_participants rest worth db).2)

/-- finalize_split: indexing `tagged_members[post_id]` raises a `KeyError`
when the context has no split; otherwise credit the submitted, not-yet
credited participants and delete the split entry (the thread-archival side
effects are external). -/
def finalize_split (st : SplitTrackerState) (db : Ledger) (post_id : Int) :
    PyRes × SplitTrackerState × Ledger :=
  match pyDictGet st.tagged_members post_id with
  | none => (.raisedKeyError, st, db)
  | some sd =>
    (.ok,
      { st with tagged_members := pyDictPop st.tagged_members post_id },
      (credit_participants sd.players sd.worth db).2)

/-- cancel_split: `del tagged_members[post_id]`, which raises a `KeyError`
when the context has no split. -/
def cancel_split (st : SplitTrackerState) (post_id : Int) :
    PyRes × SplitTrackerState :=
  match pyDictGet st.tagged_members post_id with
  | none => (.raisedKeyError, st)
  | some _ => (.ok, { st with tagged_members := pyDictPop st.tagged_members post_id })

/-- on_message restricted to its state effect: when the message carries an
attachment or link, the channel has an active split and the author is a
tagged participant, mark them submitted and bump `image_count`; the returned
flag says whether the all-submitted verification prompt is triggered (which
requires a tracked status message).  Otherwise a silent no-op. -/
def on_message (st : SplitTrackerState) (has_proof : Bool)
    (channel_id author : Int) : SplitTrackerState × Bool :=
  if has_proof then
    match pyDictGet st.tagged_members channel_id with
    | none => (st, false)
    | some sd =>
      match pyDictGet sd.players author with
      | none => (st, false)
      | some info =>
        let info1 : PlayerInfo :=
          { info with submitted := true, image_count := info.image_count + 1 }
        let players1 := pyDictSet sd.players author info1
        ({ st with tagged_members :=
            pyDictSet st.tagged_members channel_id { sd with players := players1 } },
          match pyDictGet st.tracked_message_ids channel_id with
          | some _ => players1.all (fun p => p.2.submitted)
          | none => false)
  else (st, false)

/-- Empty loot-split tracker state. -/
def split_state_empty : SplitTrackerState :=
  { tagged_members := [], tracked_message_ids := [] }

/-! ## split_members (`/split` command) -/

/-- Python `str.split()` with no separator: split on whitespace runs,
dropping empty pieces (so a whitespace-only string yields no pieces). -/
def pySplitAux : List Char → List Char → List String
  | [], acc => if acc.isEmpty then [] else [String.mk acc.reverse]
  | c :: cs, acc =>
    if c = ' ' then
      if acc.isEmpty then pySplitAux cs []
      else String.mk acc.reverse :: pySplitAux cs []
    else pySplitAux cs (c :: acc)

def pySplitWhitespace (s : String) : List String := pySplitAux s.toList []

/-- Python `int(s)` on the cleaned mention body: optional sign, then digits;
`none` where `int` raises `ValueError`. -/
def pyInt : List Char → Option Int
  | '-' :: rest => (digitsVal rest).map (fun n => -(n : Int))
  | '+' :: rest => (digitsVal rest).map (fun n => (n : Int))
  | l => (digitsVal l).map (fun n => (n : Int))

inductive SplitResult where
  | errNoPlayers
  | errInvalidMention
  | errInvalidFormat
  | errInvalidValue
  | ok
  deriving DecidableEq

/-- One iteration of the mention loop of `split_members`: the token must
look like `<@...>`; the body between the brackets, with every `!` removed,
must parse as an integer id (`fetch_member` is the external collaborator
resolving it to a member). -/
def parse_mention (tok : String) : Except SplitResult Int :=
  if tok.toList.take 2 = ['<', '@'] ∧ tok.toList.getLast? = some '>' then
    match pyInt (((tok.toList.drop 2).dropLast).filter (fun c => decide (c ≠ '!'))) with
    | some member_id => .ok member_id
    | none => .error .errInvalidMention
  else .error .errInvalidFormat

/-- The mention loop: first bad token aborts the command with its error. -/
def parse_mentions : List String → Except SplitResult (List Int)
  | [] => .ok []
  | tok :: rest =>
    match parse_mention tok with
    | .error e => .error e
    | .ok m =>
      match parse_mentions rest with
      | .error e => .error e
      | .ok ms => .ok (m :: ms)

/-- split_members: reject an empty players string; parse the mentions; store
the split bookkeeping (dict comprehension over the members, worth 0) under
the channel id, overwriting any prior entry; then, when a value was supplied
and there is at least one member, parse it (on a parse failure the command
aborts, leaving the just-stored worth-0 split behind) and store the
per-member share `worth = value / len(members)`; finally record the id of
the posted status embed. -/
def split_members (st : SplitTrackerState) (post_id : Int) (players : String)
    (value : Option String) (message_id : Nat) : SplitResult × SplitTrackerState :=
  if players = "" then (.errNoPlayers, st)
  else
    match parse_mentions (pySplitWhitespace players) with
    | .error e => (e, st)
    | .ok members =>
      let entry : SplitData :=
        { players := members.foldl (fun d m => pyDictSet d m ⟨false, 0, false⟩) [],
          worth := 0 }
      let st1 : SplitTrackerState :=
        { st with tagged_members := pyDictSet st.tagged_members post_id entry }
      match value with
      | some v =>
        if members.length > 0 then
          match parse_value v with
          | none => (.errInvalidValue, st1)
          | some w =>
            (.ok,
              { st1 with
                tagged_members := pyDictSet st1.tagged_members post_id
                  { entry with worth := w / (members.length : ℚ) },
                tracked_message_ids :=
                  pyDictSet st1.tracked_message_ids post_id message_id })
        else
          (.ok,
            { st1 with
              tracked_message_ids :=
                pyDictSet st1.tracked_message_ids post_id message_id })
      | none =>
        (.ok,
          { st1 with
            tracked_message_ids :=
              pyDictSet st1.tracked_message_ids post_id message_id })

/-! ## Theorems -/

theorem pyDictGet_pop_self {κ α : Type} [DecidableEq κ]
    (d : List (κ × α)) (k : κ) : pyDictGet (pyDictPop d k) k = none := by
  induction d with
  | nil => rfl
  | cons p d ih =>
    by_cases h : p.1 = k
    · simpa [pyDictPop, h] using ih
    · simpa [pyDictPop, pyDictGet, h] using ih

theorem pyDictGet_map_set {κ α : Type} [DecidableEq κ]
    (d : List (κ × α)) (k : κ) (v : α) :
    pyDictGet (d.map (fun p => if p.1 = k then (k, v) else p)) k =
      if (pyDictGet d k).isSome then some v else none := by
  induction d with
  | nil => simp [pyDictGet]
  | cons p d ih =>
    by_cases h : p.1 = k
    · simp [pyDictGet, h]
    · simpa [pyDictGet, h] using ih

theorem pyDictGet_append_single {κ α : Type} [DecidableEq κ]
    (d : List (κ × α)) (k : κ) (v : α) (h : pyDictGet d k = none) :
    pyDictGet (d ++ [(k, v)]) k = some v := by
  induction d with
  | nil => simp [pyDictGet]
  | cons p d ih =>
    by_cases hp : p.1 = k
    · simp [pyDictGet, hp] at h
    · simp only [pyDictGet, hp, if_false, List.cons_append, ite_false] at h ⊢
      exact ih h

theorem pyDictGet_set_self {κ α : Type} [DecidableEq κ]
    (d : List (κ × α)) (k : κ) (v : α) :
    pyDictGet (pyDictSet d k v) k = some v := by
  unfold pyDictSet
  by_cases hs : (pyDictGet d k).isSome
  · rw [if_pos hs, pyDictGet_map_set, if_pos hs]
  · rw [if_neg hs]
    exact pyDictGet_append_single d k v (by
      cases hg : pyDictGet d k
      · rfl
      · exact absurd (by simp [hg]) hs)

theorem pyDictGet_update (db : Ledger) (p q : Int) (v : ℚ) (h : q ≠ p) :
    pyDictGet (update_player_value db p v) q = pyDictGet db q := by
  unfold update_player_value
  induction db with
  | nil => simp [pyDictGet, Ne.symm h]
  | cons r d ih =>
    by_cases hp : r.1 = p
    · have hq : ¬ r.1 = q := fun hc => h (hc ▸ hp)
      show pyDictGet (pyDictPop (r :: d) p ++ [(p, v)]) q = pyDictGet (r :: d) q
      rw [show pyDictPop (r :: d) p = pyDictPop d p by simp [pyDictPop, hp],
        show pyDictGet (r :: d) q = pyDictGet d q by simp [pyDictGet, hq]]
      exact ih
    · show pyDictGet (pyDictPop (r :: d) p ++ [(p, v)]) q = pyDictGet (r :: d) q
      rw [show pyDictPop (r :: d) p = r :: pyDictPop d p by simp [pyDictPop, hp]]
      by_cases hq : r.1 = q
      · simp [pyDictGet, hq]
      · rw [List.cons_append,
          show pyDictGet (r :: (pyDictPop d p ++ [(p, v)])) q =
            pyDictGet (pyDictPop d p ++ [(p, v)]) q by simp [pyDictGet, hq],
          show pyDictGet (r :: d) q = pyDictGet d q by simp [pyDictGet, hq]]
        exact ih

theorem get_update_self (db : Ledger) (p : Int) (v : ℚ) :
    get_player_value (update_player_value db p v) p = v := by
  unfold get_player_value update_player_value
  rw [pyDictGet_append_single _ _ _ (pyDictGet_pop_self db p)]

theorem get_update_ne (db : Ledger) (p q : Int) (v : ℚ) (h : q ≠ p) :
    get_player_value (update_player_value db p v) q = get_player_value db q := by
  unfold get_player_value
  rw [pyDictGet_update db p q v h]

theorem get_add_self (db : Ledger) (p : Int) (a : ℚ) :
    get_player_value (add_to_player_value db p a) p = get_player_value db p + a :=
  get_update_self db p _

theorem get_add_ne (db : Ledger) (p q : Int) (a : ℚ) (h : q ≠ p) :
    get_player_value (add_to_player_value db p a) q = get_player_value db q :=
  get_update_ne db p q _ h

/-- C9: for every player and non-negative amount, the remove operation sets the
entry to `max(current - amount, 0)`, and (whatever the current value and the
amount are) the resulting entry is never below 0. -/
theorem removeValue_floor_clamp :
    (∀ (db : Ledger) (p : Int) (a : ℚ), 0 ≤ a →
      get_player_value (remove_from_player_value db p a) p =
        max (get_player_value db p - a) 0) ∧
    (∀ (db : Ledger) (p : Int) (a : ℚ),
      0 ≤ get_player_value (remove_from_player_value db p a) p) := by
  constructor
  · intro db p a _
    exact get_update_self db p _
  · intro db p a
    rw [remove_from_player_value, get_update_self]
    exact le_max_right _ _

/-- Witness for C9 at a concrete ledger and amount. -/
theorem removeValue_floor_clamp_witness :
    get_player_value (remove_from_player_value [((1 : Int), (3 : ℚ))] 1 5) 1 =
      max ((3 : ℚ) - 5) 0 ∧
    (0 : ℚ) ≤ get_player_value (remove_from_player_value [((1 : Int), (3 : ℚ))] 1 5) 1 :=
  ⟨removeValue_floor_clamp.1 [((1 : Int), (3 : ℚ))] 1 5 (by norm_num),
   removeValue_floor_clamp.2 [((1 : Int), (3 : ℚ))] 1 5⟩

/-- C8: the magnitude parser maps "2.5k" to 2500 and "1m" to 1000000, maps a
non-numeric string such as "abc" to a no-value result rather than raising,
and in general parses a `k`-suffixed string as its numeric prefix times 1000
(still a no-value result when the prefix is non-numeric) and an `m`-suffixed
string as its numeric prefix times 1000000. -/
theorem parse_value_magnitudes :
    parse_value "2.5k" = some 2500 ∧
    parse_value "1m" = some 1000000 ∧
    parse_value "abc" = none ∧
    (∀ (s : String) (q : ℚ), pyEndsWith (pyLower s) 'k' = true →
      pyFloat (pyDropLast (pyLower s)) = some q → parse_value s = some (q * 1000)) ∧
    (∀ (s : String), pyEndsWith (pyLower s) 'k' = true →
      pyFloat (pyDropLast (pyLower s)) = none → parse_value s = none) ∧
    (∀ (s : String) (q : ℚ), pyEndsWith (pyLower s) 'm' = true →
      pyFloat (pyDropLast (pyLower s)) = some q → parse_value s = some (q * 1000000)) := by
  refine ⟨?_, ?_, by rfl, ?_, ?_, ?_⟩
  · have h : parse_value "2.5k" = some (((2 : ℚ) + (5 : ℚ) / (10 : ℚ) ^ 1) * 1000) := rfl
    rw [h]
    norm_num
  · have h : parse_value "1m" = some ((1 : ℚ) * 1000000) := rfl
    rw [h]
    norm_num
  · intro s q hk hf
    simp [parse_value, hk, hf]
  · intro s hk hf
    simp [parse_value, hk, hf]
  · intro s q hm hf
    have hlast : (pyLower s).toList.getLast? = some 'm' := of_decide_eq_true hm
    have hk : pyEndsWith (pyLower s) 'k' = false := by
      unfold pyEndsWith
      rw [hlast]
      decide
    simp [parse_value, hk, hm, hf]

/-- Witness for C8's general clauses at the input "40k". -/
theorem parse_value_magnitudes_witness :
    parse_value "40k" = some ((40 : ℚ) * 1000) :=
  parse_value_magnitudes.2.2.2.1 "40k" 40 (by rfl) (by rfl)

/-- C10: add_to_player_value applies no lower clamp (the entry becomes current
plus amount for every amount), the parser accepts negative magnitude strings
("-5k" parses to -5000), and consequently an add with a negative amount can
drive a ledger entry below 0. -/
theorem addValue_no_floor :
    (∀ (db : Ledger) (p : Int) (a : ℚ),
      get_player_value (add_to_player_value db p a) p = get_player_value db p + a) ∧
    parse_value "-5k" = some (-5000) ∧
    get_player_value (add_to_player_value ([] : Ledger) 1 (-5000)) 1 < 0 := by
  refine ⟨get_add_self, ?_, ?_⟩
  · have h : parse_value "-5k" = some (-(5 : ℚ) * 1000) := rfl
    rw [h]
    norm_num
  · rw [get_add_self]
    norm_num [get_player_value, pyDictGet]

theorem erase_ite (l : List String) (u : String) :
    (if u ∈ l then l.erase u else l) = l.erase u := by
  by_cases h : u ∈ l
  · rw [if_pos h]
  · rw [if_neg h, List.erase_of_not_mem h]

theorem sweepErase_apply (labels : List String) (s : String → List String)
    (u r : String) (hnd : labels.Nodup) :
    sweepErase labels s u r = if r ∈ labels then (s r).erase u else s r := by
  induction labels generalizing s with
  | nil => simp [sweepErase]
  | cons a labels ih =>
    have hnd' : labels.Nodup := hnd.of_cons
    have hna : a ∉ labels := by
      intro hc
      exact (List.nodup_cons.mp hnd).1 hc
    have hstep : sweepErase (a :: labels) s u =
        sweepErase labels (Function.update s a ((s a).erase u)) u := by
      simp only [sweepErase, List.foldl_cons, erase_ite]
    rw [hstep, ih _ hnd']
    by_cases hr : r ∈ labels
    · have hra : r ≠ a := fun hc => hna (hc ▸ hr)
      simp [hr, hra, Function.update_noteq hra, List.mem_cons]
    · by_cases hra : r = a
      · subst hra
        simp [hr, Function.update_same]
      · simp [hr, hra, Function.update_noteq hra, List.mem_cons]

theorem sumCount_congr (labels : List String) (s s' : String → List String)
    (u : String) (h : ∀ r ∈ labels, s r = s' r) :
    sumCount labels s u = sumCount labels s' u := by
  unfold sumCount
  rw [List.map_congr_left (fun r hr => by rw [h r hr])]

theorem count_le_sumCount (labels : List String) (s : String → List String)
    (u r : String) (hr : r ∈ labels) : (s r).count u ≤ sumCount labels s u := by
  induction labels with
  | nil => cases hr
  | cons a labels ih =>
    rcases List.mem_cons.mp hr with h | h
    · subst h
      simp only [sumCount, List.map_cons, List.sum_cons]
      exact Nat.le_add_right _ _
    · calc (s r).count u ≤ sumCount labels s u := ih h
        _ ≤ sumCount (a :: labels) s u := by
            simp only [sumCount, List.map_cons, List.sum_cons]
            exact Nat.le_add_left _ _

theorem sumCount_eq_zero (labels : List String) (s : String → List String)
    (u : String) (h : ∀ r ∈ labels, (s r).count u = 0) :
    sumCount labels s u = 0 := by
  unfold sumCount
  exact List.sum_eq_zero (by
    intro x hx
    rcases List.mem_map.mp hx with ⟨r, hr, hrx⟩
    rw [← hrx]
    exact h r hr)

theorem sumCount_update_add (labels : List String) (s : String → List String)
    (u k : String) (l : List String) (hnd : labels.Nodup) (hk : k ∈ labels) :
    sumCount labels (Function.update s k l) u + (s k).count u =
      sumCount labels s u + l.count u := by
  induction labels with
  | nil => cases hk
  | cons a labels ih =>
    have hnd' : labels.Nodup := hnd.of_cons
    rcases List.mem_cons.mp hk with h | h
    · subst h
      have hna : k ∉ labels := (List.nodup_cons.mp hnd).1
      have hcongr : sumCount labels (Function.update s k l) u = sumCount labels s u :=
        sumCount_congr labels _ s u (fun r hr =>
          Function.update_noteq (fun hc => hna (by rw [← hc]; exact hr)) _ _)
      simp only [sumCount, List.map_cons, List.sum_cons, Function.update_same]
      rw [show ((labels.map (fun r => ((Function.update s k l) r).count u)).sum :
          Nat) = sumCount labels (Function.update s k l) u from rfl, hcongr]
      rw [show ((labels.map (fun r => (s r).count u)).sum : Nat) =
        sumCount labels s u from rfl]
      omega
    · have hak : a ≠ k := by
        intro hc
        exact (List.nodup_cons.mp hnd).1 (hc ▸ h)
      have := ih hnd' h
      simp only [sumCount, List.map_cons, List.sum_cons,
        Function.update_noteq hak]
      rw [show ((labels.map (fun r => ((Function.update s k l) r).count u)).sum :
          Nat) = sumCount labels (Function.update s k l) u from rfl]
      rw [show ((labels.map (fun r => (s r).count u)).sum : Nat) =
        sumCount labels s u from rfl]
      omega

theorem sumCount_congrCount (labels : List String) (s s' : String → List String)
    (u : String) (h : ∀ r ∈ labels, (s r).count u = (s' r).count u) :
    sumCount labels s u = sumCount labels s' u := by
  unfold sumCount
  rw [List.map_congr_left (fun r hr => h r hr)]

theorem toggle_preserves_occ (e : EventState) (role user : String)
    (hnd : e.role_labels.Nodup) (hI : ∀ v, occ_total e v ≤ 1) :
    ∀ v, occ_total (role_signup_callback e role user).2 v ≤ 1 := by
  intro v
  unfold role_signup_callback
  by_cases hc : e.cancelled = true
  · rw [if_pos hc]
    exact hI v
  · rw [if_neg hc]
    by_cases hrole : role ∈ e.role_labels
    · rw [if_pos hrole]
      by_cases hmem : user ∈ e.user_roles role
      · rw [if_pos hmem]
        dsimp only
        show sumCount e.role_labels
          (Function.update e.user_roles role ((e.user_roles role).erase user)) v ≤ 1
        have key := sumCount_update_add e.role_labels e.user_roles v role
          ((e.user_roles role).erase user) hnd hrole
        have hle : ((e.user_roles role).erase user).count v ≤
            (e.user_roles role).count v :=
          (List.erase_sublist user (e.user_roles role)).count_le v
        have hIv := hI v
        unfold occ_total at hIv
        omega
      · rw [if_neg hmem]
        by_cases hact : (e.active_users_roles user).isSome = true
        · rw [if_pos hact]
          exact hI v
        · rw [if_neg hact]
          dsimp only
          show sumCount e.role_labels
            (Function.update (sweepErase e.role_labels e.user_roles user) role
              (sweepErase e.role_labels e.user_roles user role ++ [user])) v ≤ 1
          have key := sumCount_update_add e.role_labels
            (sweepErase e.role_labels e.user_roles user) v role
            (sweepErase e.role_labels e.user_roles user role ++ [user]) hnd hrole
          by_cases hv : v = user
          · subst hv
            have hz : ∀ r ∈ e.role_labels,
                ((sweepErase e.role_labels e.user_roles v) r).count v = 0 := by
              intro r hr
              rw [sweepErase_apply _ _ _ _ hnd, if_pos hr, List.count_erase_self]
              have h1 : (e.user_roles r).count v ≤ occ_total e v :=
                count_le_sumCount e.role_labels e.user_roles v r hr
              have h2 := hI v
              omega
            have hz2 : sumCount e.role_labels
                (sweepErase e.role_labels e.user_roles v) v = 0 :=
              sumCount_eq_zero _ _ _ hz
            have hz3 : ((sweepErase e.role_labels e.user_roles v) role).count v = 0 :=
              hz role hrole
            have happ : ((sweepErase e.role_labels e.user_roles v) role ++
                [v]).count v =
                ((sweepErase e.role_labels e.user_roles v) role).count v + 1 := by
              simp [List.count_append]
            omega
          · have hcongr : sumCount e.role_labels
                (sweepErase e.role_labels e.user_roles user) v =
                sumCount e.role_labels e.user_roles v := by
              refine sumCount_congrCount _ _ _ _ (fun r hr => ?_)
              rw [sweepErase_apply _ _ _ _ hnd, if_pos hr,
                List.count_erase_of_ne hv]
            have happ : ((sweepErase e.role_labels e.user_roles user) role ++
                [user]).count v =
                ((sweepErase e.role_labels e.user_roles user) role).count v := by
              simp [List.count_append, List.count_singleton, hv]
            have hIv := hI v
            unfold occ_total at hIv
            omega
    · rw [if_neg hrole]
      exact hI v

theorem toggle_labels (e : EventState) (role user : String) :
    (role_signup_callback e role user).2.role_labels = e.role_labels := by
  unfold role_signup_callback
  by_cases hc : e.cancelled = true
  · rw [if_pos hc]
  · rw [if_neg hc]
    by_cases hrole : role ∈ e.role_labels
    · rw [if_pos hrole]
      by_cases hmem : user ∈ e.user_roles role
      · rw [if_pos hmem]
      · rw [if_neg hmem]
        by_cases hact : (e.active_users_roles user).isSome = true
        · rw [if_pos hact]
        · rw [if_neg hact]
    · rw [if_neg hrole]

theorem reachable_invariant (e : EventState) (h : ReachableEvent e) :
    e.role_labels.Nodup ∧ ∀ v, occ_total e v ≤ 1 := by
  induction h with
  | created template channel start hnd =>
    refine ⟨hnd, fun v => ?_⟩
    have : occ_total (mk_event template channel start) v = 0 :=
      sumCount_eq_zero _ _ _ (fun r _ => by simp [mk_event])
    omega
  | toggled e role user h ih =>
    refine ⟨by rw [toggle_labels]; exact ih.1, ?_⟩
    exact toggle_preserves_occ e role user ih.1 ih.2

theorem filter_length_le_sumCount (labels : List String)
    (s : String → List String) (u : String) :
    (labels.filter (fun r => decide (u ∈ s r))).length ≤ sumCount labels s u := by
  induction labels with
  | nil => simp [sumCount]
  | cons a labels ih =>
    by_cases h : u ∈ s a
    · have hpa : (decide (u ∈ s a)) = true := by simpa using h
      have hpos : 1 ≤ (s a).count u := List.count_pos_iff.mpr h
      rw [List.filter_cons, if_pos hpa]
      simp only [List.length_cons, sumCount, List.map_cons, List.sum_cons]
      have := ih
      unfold sumCount at this
      omega
    · have hpa : (decide (u ∈ s a)) = false := by simpa using h
      rw [List.filter_cons, if_neg (by simp [hpa])]
      simp only [sumCount, List.map_cons, List.sum_cons]
      have := ih
      unfold sumCount at this
      omega

/-- C5: every slot toggle preserves the at-most-one-slot bound (each user
occurs at most once across all of an event's role-slot lists), and in every
reachable event state each user appears in at most one role-slot list. -/
theorem signup_at_most_one_role :
    (∀ (e : EventState) (role user : String), e.role_labels.Nodup →
      (∀ v, occ_total e v ≤ 1) →
      ∀ v, occ_total (role_signup_callback e role user).2 v ≤ 1) ∧
    (∀ e : EventState, ReachableEvent e → ∀ v,
      (e.role_labels.filter (fun r => decide (v ∈ e.user_roles r))).length ≤ 1) := by
  refine ⟨toggle_preserves_occ, fun e h v => ?_⟩
  calc (e.role_labels.filter (fun r => decide (v ∈ e.user_roles r))).length
      ≤ sumCount e.role_labels e.user_roles v :=
        filter_length_le_sumCount _ _ _
    _ ≤ 1 := (reachable_invariant e h).2 v

/-- Witness for C5 at a concrete two-role event and one toggle. -/
theorem signup_at_most_one_role_witness :
    occ_total (role_signup_callback (mk_event ["Tank", "Healer"] 1 0)
      "Tank" "alice").2 "alice" ≤ 1 ∧
    ((role_signup_callback (mk_event ["Tank", "Healer"] 1 0)
        "Tank" "alice").2.role_labels.filter
      (fun r => decide ("alice" ∈ (role_signup_callback
        (mk_event ["Tank", "Healer"] 1 0) "Tank" "alice").2.user_roles r))).length
      ≤ 1 := by
  constructor
  · exact signup_at_most_one_role.1 (mk_event ["Tank", "Healer"] 1 0) "Tank" "alice"
      (by decide) (fun v => by
        have : occ_total (mk_event ["Tank", "Healer"] 1 0) v = 0 :=
          sumCount_eq_zero _ _ _ (fun r _ => by simp [mk_event])
        omega) "alice"
  · exact signup_at_most_one_role.2 _
      (ReachableEvent.toggled _ "Tank" "alice"
        (ReachableEvent.created ["Tank", "Healer"] 1 0 (by decide))) "alice"

/-- Helper: on a non-cancelled event whose active-role marker agrees with
the slot lists, the sign-up callback equals the claimed algorithm. -/
theorem toggle_spec_of_consistent (e : EventState) (role user : String)
    (hnd : e.role_labels.Nodup) (hcanc : e.cancelled = false)
    (hrole : role ∈ e.role_labels) (hcons : Consistent e) :
    role_signup_callback e role user = toggle_slot_spec e role user := by
  unfold role_signup_callback toggle_slot_spec
  rw [if_neg (by simp [hcanc]), if_pos hrole]
  by_cases hmem : user ∈ e.user_roles role
  · rw [if_pos hmem, if_pos hmem]
  · rw [if_neg hmem, if_neg hmem]
    cases hact : e.active_users_roles user with
    | some r =>
      have h1 := hcons.1 user r hact
      have hne : r ≠ role := fun hc => hmem (hc ▸ h1.2)
      rw [if_pos (by simp [hact]), if_pos ⟨r, h1.1, hne, h1.2⟩]
    | none =>
      have hnone : ∀ r ∈ e.role_labels, user ∉ e.user_roles r := by
        intro r hr hmem2
        have hsome := hcons.2 user r hr hmem2
        rw [hact] at hsome
        exact Option.noConfusion hsome
      rw [if_neg (by simp [hact]), if_neg (by
        rintro ⟨r, hr, _, hmem2⟩
        exact hnone r hr hmem2)]
      have hsweep : sweepErase e.role_labels e.user_roles user = e.user_roles := by
        funext r
        rw [sweepErase_apply _ _ _ _ hnd]
        by_cases hr : r ∈ e.role_labels
        · rw [if_pos hr, List.erase_of_not_mem (hnone r hr)]
        · rw [if_neg hr]
      rw [hsweep]

theorem reminder_latched (event_start_time : Int) (polls : List (Int × Bool)) :
    NotifyMsg.reminder ∉ track_event_time event_start_time polls true := by
  induction polls with
  | nil => simp [track_event_time]
  | cons p polls ih =>
    obtain ⟨now, canc⟩ := p
    by_cases hc : canc = true
    · simp [track_event_time, hc]
    · by_cases hs : event_start_time - now ≤ 0
      · simp [track_event_time, hc, hs]
      · simp [track_event_time, hc, hs, ih]

theorem track_after_reminder (event_start_time : Int) (ts : List Int)
    (hcross : ∃ t ∈ ts, event_start_time - t ≤ 0) :
    track_event_time event_start_time (ts.map (fun t => (t, false))) true =
      [NotifyMsg.start] := by
  induction ts with
  | nil => simp at hcross
  | cons t ts ih =>
    simp only [List.map_cons]
    by_cases hs : event_start_time - t ≤ 0
    · simp [track_event_time, hs]
    · have hcross' : ∃ u ∈ ts, event_start_time - u ≤ 0 := by
        rcases hcross with ⟨u, hu, hle⟩
        rcases List.mem_cons.mp hu with h | h
        · exact absurd (h ▸ hle) hs
        · exact ⟨u, h, hle⟩
      simp [track_event_time, hs, ih hcross']

/-- C6: a countdown run for a non-cancelled event (every poll observes
cancellation false), started before the event start, polling with gaps of at
most 300 seconds (the loop sleeps 60) until the start time has passed, emits
exactly the five-minute reminder once and then the start message once, and
terminates; moreover once the reminder flag is latched no further reminder
is ever emitted, whatever the remaining polls observe. -/
theorem countdown_latch :
    (∀ (event_start_time t0 : Int) (rest : List Int),
      0 < event_start_time - t0 →
      List.Chain' (fun a b => a ≤ b ∧ b - a ≤ 300) (t0 :: rest) →
      (∃ t ∈ t0 :: rest, event_start_time - t ≤ 0) →
      track_event_time event_start_time
        ((t0 :: rest).map (fun t => (t, false))) false =
        [NotifyMsg.reminder, NotifyMsg.start]) ∧
    (∀ (event_start_time : Int) (polls : List (Int × Bool)),
      NotifyMsg.reminder ∉ track_event_time event_start_time polls true) := by
  refine ⟨?_, reminder_latched⟩
  intro event_start_time t0 rest
  induction rest generalizing t0 with
  | nil =>
    intro h0 _ hcross
    exfalso
    rcases hcross with ⟨t, ht, hle⟩
    rcases List.mem_cons.mp ht with h | h
    · subst h
      omega
    · simp at h
  | cons t1 rest ih =>
    intro h0 hchain hcross
    have hnc : ¬ event_start_time - t0 ≤ 0 := by omega
    have hcross' : ∃ t ∈ t1 :: rest, event_start_time - t ≤ 0 := by
      rcases hcross with ⟨t, ht, hle⟩
      rcases List.mem_cons.mp ht with h | h
      · exact absurd (h ▸ hle) hnc
      · exact ⟨t, h, hle⟩
    obtain ⟨⟨hle01, hgap⟩, hchain'⟩ := List.chain'_cons.mp hchain
    by_cases hw : event_start_time - t0 ≤ 300
    · rw [show track_event_time event_start_time
          ((t0 :: t1 :: rest).map (fun t => (t, false))) false =
          NotifyMsg.reminder :: track_event_time event_start_time
            ((t1 :: rest).map (fun t => (t, false))) true by
        simp [track_event_time, hnc, hw]]
      rw [track_after_reminder event_start_time (t1 :: rest) hcross']
    · rw [show track_event_time event_start_time
          ((t0 :: t1 :: rest).map (fun t => (t, false))) false =
          track_event_time event_start_time
            ((t1 :: rest).map (fun t => (t, false))) false by
        simp [track_event_time, hnc, hw]]
      exact ih t1 (by omega) hchain' hcross'

/-- Witness for C6: one-minute polling from 400 seconds out. -/
theorem countdown_latch_witness :
    track_event_time 1000
      (([600, 660, 720, 780, 840, 900, 960, 1020] : List Int).map
        (fun t => (t, false))) false = [NotifyMsg.reminder, NotifyMsg.start] :=
  countdown_latch.1 1000 600 [660, 720, 780, 840, 900, 960, 1020]
    (by decide)
    (by
      simp only [List.chain'_cons, List.chain'_singleton, and_true]
      decide)
    (by decide)

/-- C2 fails on the code: after a successful cancel the registry entry is
deleted, so the RaidAnnouncement countdown's next polls observe the default
`False` — not `True` — and the loop goes on to emit both the five-minute
reminder and the start message; the FFAnnouncement countdown's check raises
a `KeyError` instead of observing `True`. -/
theorem cancel_does_not_stop_countdown :
    (cancel_event_callback ra_state_c2 10).1 = CancelResult.cancelledOk ∧
    observe_cancelled (cancel_event_callback ra_state_c2 10).2 1 = false ∧
    track_event_time 1000
      [(800, observe_cancelled (cancel_event_callback ra_state_c2 10).2 1),
       (1100, observe_cancelled (cancel_event_callback ra_state_c2 10).2 1)]
      false = [NotifyMsg.reminder, NotifyMsg.start] ∧
    ff_cancel_check (cancel_event_callback ra_state_c2 10).2 1 =
      Except.error () := by
  refine ⟨rfl, rfl, rfl, rfl⟩

theorem credit_not_mem (players : List (Int × PlayerInfo)) (worth : ℚ)
    (db : Ledger) (p : Int) (hp : p ∉ players.map Prod.fst) :
    get_player_value (credit_participants players worth db).2 p =
      get_player_value db p := by
  induction players generalizing db with
  | nil => rfl
  | cons q rest ih =>
    obtain ⟨player, info⟩ := q
    rw [List.map_cons] at hp
    have h1 : p ≠ player := fun hc => hp (by simp [hc])
    have h2 : p ∉ rest.map Prod.fst := fun hc => hp (by simp [hc])
    by_cases hcond : info.submitted = true ∧ info.value_added = false
    · unfold credit_participants
      rw [if_pos hcond]
      dsimp only
      rw [ih _ h2]
      exact get_add_ne db player p worth h1
    · unfold credit_participants
      rw [if_neg hcond]
      dsimp only
      exact ih db h2

theorem credit_noop (players : List (Int × PlayerInfo)) (worth : ℚ) (db : Ledger)
    (h : ∀ pi ∈ players, ¬(pi.2.submitted = true ∧ pi.2.value_added = false)) :
    credit_participants players worth db = (players, db) := by
  induction players generalizing db with
  | nil => rfl
  | cons q rest ih =>
    obtain ⟨player, info⟩ := q
    have hq := h (player, info) (List.mem_cons_self _ _)
    unfold credit_participants
    rw [if_neg hq, ih db (fun pi hpi => h pi (List.mem_cons_of_mem _ hpi))]

theorem credit_output_latched (players : List (Int × PlayerInfo)) (worth : ℚ)
    (db : Ledger) :
    ∀ pi ∈ (credit_participants players worth db).1,
      ¬(pi.2.submitted = true ∧ pi.2.value_added = false) := by
  induction players generalizing db with
  | nil =>
    intro pi hpi
    simp [credit_participants] at hpi
  | cons q rest ih =>
    obtain ⟨player, info⟩ := q
    intro pi hpi
    by_cases hcond : info.submitted = true ∧ info.value_added = false
    · unfold credit_participants at hpi
      rw [if_pos hcond] at hpi
      dsimp only at hpi
      rcases List.mem_cons.mp hpi with h | h
      · subst h
        simp
      · exact ih _ pi h
    · unfold credit_participants at hpi
      rw [if_neg hcond] at hpi
      dsimp only at hpi
      rcases List.mem_cons.mp hpi with h | h
      · subst h
        exact hcond
      · exact ih _ pi h

theorem finalize_missing (st : SplitTrackerState) (db : Ledger) (post_id : Int)
    (h : pyDictGet st.tagged_members post_id = none) :
    finalize_split st db post_id = (.raisedKeyError, st, db) := by
  unfold finalize_split
  rw [h]

theorem finalize_pop (st : SplitTrackerState) (db : Ledger) (post_id : Int) :
    pyDictGet (finalize_split st db post_id).2.1.tagged_members post_id = none := by
  unfold finalize_split
  cases hg : pyDictGet st.tagged_members post_id with
  | none =>
    dsimp only
    exact hg
  | some sd =>
    dsimp only
    exact pyDictGet_pop_self _ _

/-- C1: (a) a second invocation of `finalize_split` for the same context
raises and leaves the state and the ledger exactly as the first left them;
(b) running the crediting loop again over its own output changes nothing
(`value_added` is latched in the same step as the credit), which covers a
retry that interleaves before the split entry is deleted; (c) within one
crediting pass each participant's ledger entry grows by the share at most
once. -/
theorem credit_exactly_once :
    (∀ (st : SplitTrackerState) (db : Ledger) (post_id : Int),
      finalize_split (finalize_split st db post_id).2.1
          (finalize_split st db post_id).2.2 post_id =
        (PyRes.raisedKeyError, (finalize_split st db post_id).2.1,
          (finalize_split st db post_id).2.2)) ∧
    (∀ (players : List (Int × PlayerInfo)) (worth : ℚ) (db : Ledger),
      credit_participants (credit_participants players worth db).1 worth
          (credit_participants players worth db).2 =
        credit_participants players worth db) ∧
    (∀ (players : List (Int × PlayerInfo)) (worth : ℚ) (db : Ledger) (p : Int),
      (players.map Prod.fst).Nodup →
      get_player_value (credit_participants players worth db).2 p =
          get_player_value db p ∨
        get_player_value (credit_participants players worth db).2 p =
          get_player_value db p + worth) := by
  refine ⟨?_, ?_, ?_⟩
  · intro st db post_id
    exact finalize_missing _ _ _ (finalize_pop st db post_id)
  · intro players worth db
    exact credit_noop _ _ _ (credit_output_latched players worth db)
  · intro players worth db p
    induction players generalizing db with
    | nil =>
      intro _
      left
      rfl
    | cons q rest ih =>
      intro hnd
      obtain ⟨player, info⟩ := q
      rw [List.map_cons] at hnd
      have h1 : player ∉ rest.map Prod.fst := (List.nodup_cons.mp hnd).1
      have h2 : (rest.map Prod.fst).Nodup := (List.nodup_cons.mp hnd).2
      by_cases hcond : info.submitted = true ∧ info.value_added = false
      · unfold credit_participants
        rw [if_pos hcond]
        dsimp only
        by_cases hpq : p = player
        · subst hpq
          right
          rw [credit_not_mem rest worth _ p h1, get_add_self]
        · rcases ih (add_to_player_value db player worth) h2 with h | h
          · left
            rw [h, get_add_ne db player p worth hpq]
          · right
            rw [h, get_add_ne db player p worth hpq]
      · unfold credit_participants
        rw [if_neg hcond]
        dsimp only
        exact ih db h2

/-- Witness for C1's per-pass clause on a two-participant split. -/
theorem credit_exactly_once_witness :
    get_player_value (credit_participants
        [((1 : Int), ⟨true, 1, false⟩), ((2 : Int), ⟨true, 1, false⟩)]
        3000 ([] : Ledger)).2 1 = get_player_value ([] : Ledger) 1 ∨
    get_player_value (credit_participants
        [((1 : Int), ⟨true, 1, false⟩), ((2 : Int), ⟨true, 1, false⟩)]
        3000 ([] : Ledger)).2 1 = get_player_value ([] : Ledger) 1 + 3000 :=
  credit_exactly_once.2.2
    [((1 : Int), ⟨true, 1, false⟩), ((2 : Int), ⟨true, 1, false⟩)]
    3000 ([] : Ledger) 1 (by decide)

/-- C3 fails on the code: confirm and cancel on a context with no active
split raise a `KeyError` (`tagged_members[post_id]` / `del`), they do not
return a reported not-found condition. -/
theorem missing_context_raises :
    (finalize_split split_state_empty [] 5).1 = PyRes.raisedKeyError ∧
    (cancel_split split_state_empty 5).1 = PyRes.raisedKeyError :=
  ⟨rfl, rfl⟩

/-- C3 amended: on a context with no active split, `finalize_split` and
`cancel_split` raise a `KeyError` (rather than reporting a not-found
condition), while `on_message` proof recording is a silent no-op; in all
three cases the split registry and the ledger are left unchanged. -/
theorem missing_context_behaviour :
    ∀ (st : SplitTrackerState) (db : Ledger) (cid : Int) (b : Bool) (a : Int),
      pyDictGet st.tagged_members cid = none →
      finalize_split st db cid = (PyRes.raisedKeyError, st, db) ∧
      cancel_split st cid = (PyRes.raisedKeyError, st) ∧
      on_message st b cid a = (st, false) := by
  intro st db cid b a h
  refine ⟨finalize_missing st db cid h, ?_, ?_⟩
  · unfold cancel_split
    rw [h]
  · cases b <;> simp [on_message, h]

/-- Witness for C3's amended statement at the empty tracker. -/
theorem missing_context_behaviour_witness :
    finalize_split split_state_empty [] 5 =
      (PyRes.raisedKeyError, split_state_empty, ([] : Ledger)) ∧
    cancel_split split_state_empty 5 = (PyRes.raisedKeyError, split_state_empty) ∧
    on_message split_state_empty true 5 7 = (split_state_empty, false) :=
  missing_context_behaviour split_state_empty [] 5 true 7 rfl

/-- C7 fails on the code: only the empty players string is rejected; a
whitespace-only players string (here a single blank) passes the emptiness
check, yields zero mentions, and a zero-participant split is created and
stored — no no-participants error is reported. -/
theorem split_members_empty_participants :
    (split_members split_state_empty 7 " " (some "9000") 99).1 = SplitResult.ok ∧
    pyDictGet (split_members split_state_empty 7 " " (some "9000") 99).2.tagged_members 7 =
      some { players := [], worth := 0 } :=
  ⟨rfl, rfl⟩

/-- C7 amended: an empty players string is rejected with the no-mentions
error and nothing is stored; a non-empty whitespace-only players string is
accepted and stores a zero-participant split with share 0; with at least one
parsed member and a valid supplied value the stored share is the value
divided by the member count, and with no value the share is 0 — in each
accepted case the split is stored under the context id, overwriting any
prior entry there. -/
theorem split_members_spec :
    (∀ (st : SplitTrackerState) (cid : Int) (v : Option String) (msg : Nat),
      split_members st cid "" v msg = (.errNoPlayers, st)) ∧
    (∀ (st : SplitTrackerState) (cid : Int) (players : String)
        (v : Option String) (msg : Nat),
      players ≠ "" → pySplitWhitespace players = [] →
      (split_members st cid players v msg).1 = SplitResult.ok ∧
      pyDictGet (split_members st cid players v msg).2.tagged_members cid =
        some { players := [], worth := 0 }) ∧
    (∀ (st : SplitTrackerState) (cid : Int) (players : String) (msg : Nat)
        (v : String) (w : ℚ) (members : List Int),
      players ≠ "" → parse_mentions (pySplitWhitespace players) = .ok members →
      members ≠ [] → parse_value v = some w →
      (split_members st cid players (some v) msg).1 = SplitResult.ok ∧
      pyDictGet (split_members st cid players (some v) msg).2.tagged_members cid =
        some ⟨members.foldl (fun d m => pyDictSet d m ⟨false, 0, false⟩) [],
          w / (members.length : ℚ)⟩) ∧
    (∀ (st : SplitTrackerState) (cid : Int) (players : String) (msg : Nat)
        (members : List Int),
      players ≠ "" → parse_mentions (pySplitWhitespace players) = .ok members →
      (split_members st cid players none msg).1 = SplitResult.ok ∧
      pyDictGet (split_members st cid players none msg).2.tagged_members cid =
        some ⟨members.foldl (fun d m => pyDictSet d m ⟨false, 0, false⟩) [],
          0⟩) := by
  refine ⟨?_, ?_, ?_, ?_⟩
  · intro st cid v msg
    unfold split_members
    rw [if_pos rfl]
  · intro st cid players v msg h1 h2
    unfold split_members
    rw [if_neg h1, h2]
    dsimp only
    cases v with
    | none => exact ⟨rfl, pyDictGet_set_self _ _ _⟩
    | some s => exact ⟨rfl, pyDictGet_set_self _ _ _⟩
  · intro st cid players msg v w members h1 hm hmem hv
    unfold split_members
    rw [if_neg h1, hm]
    dsimp only
    rw [if_pos (List.length_pos.mpr hmem), hv]
    exact ⟨rfl, pyDictGet_set_self _ _ _⟩
  · intro st cid players msg members h1 hm
    unfold split_members
    rw [if_neg h1, hm]
    exact ⟨rfl, pyDictGet_set_self _ _ _⟩

/-- Witness for C7's amended statement: three tagged members and value 9000. -/
theorem split_members_spec_witness :
    (split_members split_state_empty 7 "<@101> <@102> <@103>"
        (some "9000") 99).1 = SplitResult.ok ∧
    pyDictGet (split_members split_state_empty 7 "<@101> <@102> <@103>"
        (some "9000") 99).2.tagged_members 7 =
      some ⟨([101, 102, 103] : List Int).foldl
          (fun d m => pyDictSet d m ⟨false, 0, false⟩) [],
        (9000 : ℚ) / (([101, 102, 103] : List Int).length : ℚ)⟩ :=
  split_members_spec.2.2.1 split_state_empty 7 "<@101> <@102> <@103>" 99 "9000"
    9000 [101, 102, 103] (by decide) rfl (by decide) rfl

theorem toggle_preserves_consistent (e : EventState) (role user : String)
    (hnd : e.role_labels.Nodup) (hI : ∀ v, occ_total e v ≤ 1)
    (hc : Consistent e) :
    Consistent (role_signup_callback e role user).2 := by
  unfold role_signup_callback
  by_cases hcanc : e.cancelled = true
  · rw [if_pos hcanc]
    exact hc
  · rw [if_neg hcanc]
    by_cases hrole : role ∈ e.role_labels
    · rw [if_pos hrole]
      by_cases hmem : user ∈ e.user_roles role
      · rw [if_pos hmem]
        dsimp only
        unfold Consistent
        dsimp only
        constructor
        · intro u r h
          by_cases hu : u = user
          · subst hu
            rw [Function.update_same] at h
            exact Option.noConfusion h
          · rw [Function.update_noteq hu] at h
            obtain ⟨hr, hm⟩ := hc.1 u r h
            refine ⟨hr, ?_⟩
            by_cases hrrole : r = role
            · subst hrrole
              rw [Function.update_same]
              exact (List.mem_erase_of_ne hu).mpr hm
            · rw [Function.update_noteq hrrole]
              exact hm
        · intro u r hr hmem'
          by_cases hu : u = user
          · exfalso
            subst hu
            by_cases hrrole : r = role
            · subst hrrole
              rw [Function.update_same] at hmem'
              have hcnt : (e.user_roles r).count u ≤ 1 :=
                le_trans (count_le_sumCount _ _ _ _ hrole) (hI u)
              have h1 : 0 < ((e.user_roles r).erase u).count u :=
                List.count_pos_iff.mpr hmem'
              rw [List.count_erase_self] at h1
              omega
            · rw [Function.update_noteq hrrole] at hmem'
              have ha := hc.2 u r hr hmem'
              have hb := hc.2 u role hrole hmem
              rw [ha] at hb
              exact hrrole (Option.some.inj hb)
          · have hmem0 : u ∈ e.user_roles r := by
              by_cases hrrole : r = role
              · subst hrrole
                rw [Function.update_same] at hmem'
                exact (List.mem_erase_of_ne hu).mp hmem'
              · rw [Function.update_noteq hrrole] at hmem'
                exact hmem'
            rw [Function.update_noteq hu]
            exact hc.2 u r hr hmem0
      · rw [if_neg hmem]
        by_cases hact : (e.active_users_roles user).isSome = true
        · rw [if_pos hact]
          exact hc
        · rw [if_neg hact]
          dsimp only
          have hmu : e.active_users_roles user = none := by
            cases hx : e.active_users_roles user
            · rfl
            · exact absurd (by simp [hx]) hact
          have hnone : ∀ r ∈ e.role_labels, user ∉ e.user_roles r := by
            intro r hr hm2
            have hsome := hc.2 user r hr hm2
            rw [hmu] at hsome
            exact Option.noConfusion hsome
          have hsweep : sweepErase e.role_labels e.user_roles user =
              e.user_roles := by
            funext r
            rw [sweepErase_apply _ _ _ _ hnd]
            by_cases hr : r ∈ e.role_labels
            · rw [if_pos hr, List.erase_of_not_mem (hnone r hr)]
            · rw [if_neg hr]
          rw [hsweep]
          unfold Consistent
          dsimp only
          constructor
          · intro u r h
            by_cases hu : u = user
            · subst hu
              rw [Function.update_same] at h
              obtain rfl : role = r := Option.some.inj h
              refine ⟨hrole, ?_⟩
              rw [Function.update_same]
              exact List.mem_append.mpr (Or.inr (List.mem_singleton.mpr rfl))
            · rw [Function.update_noteq hu] at h
              obtain ⟨hr, hm⟩ := hc.1 u r h
              refine ⟨hr, ?_⟩
              by_cases hrrole : r = role
              · subst hrrole
                rw [Function.update_same]
                exact List.mem_append.mpr (Or.inl hm)
              · rw [Function.update_noteq hrrole]
                exact hm
          · intro u r hr hmem'
            by_cases hrrole : r = role
            · subst hrrole
              rw [Function.update_same] at hmem'
              rcases List.mem_append.mp hmem' with h | h
              · have hu : u ≠ user := fun hc2 => hnone r hrole (hc2 ▸ h)
                rw [Function.update_noteq hu]
                exact hc.2 u r hrole h
              · obtain rfl : u = user := List.mem_singleton.mp h
                rw [Function.update_same]
            · rw [Function.update_noteq hrrole] at hmem'
              have hu : u ≠ user := fun hc2 => hnone r hr (hc2 ▸ hmem')
              rw [Function.update_noteq hu]
              exact hc.2 u r hr hmem'
    · rw [if_neg hrole]
      exact hc

theorem reachable_consistent (e : EventState) (h : ReachableEvent e) :
    Consistent e := by
  induction h with
  | created template channel start hnd =>
    unfold Consistent
    constructor
    · intro u r hmr
      exact Option.noConfusion hmr
    · intro u r _ hmem
      exact absurd hmem (List.not_mem_nil u)
  | toggled e role user h ih =>
    exact toggle_preserves_consistent e role user
      (reachable_invariant e h).1 (reachable_invariant e h).2 ih

/-- C4: on every reachable, non-cancelled event and for every role label of
its template, the sign-up callback follows exactly the claimed algorithm:
unsign when the user holds this slot (clearing the active-role marker),
reject with an already-signed-up error leaving the state unchanged when the
user holds any other slot (no implicit move), else append the user to the
role's slot list and set the marker. -/
theorem toggle_matches_spec :
    ∀ (e : EventState) (role user : String), ReachableEvent e →
      e.cancelled = false → role ∈ e.role_labels →
      role_signup_callback e role user = toggle_slot_spec e role user := by
  intro e role user hreach hcanc hrole
  exact toggle_spec_of_consistent e role user
    (reachable_invariant e hreach).1 hcanc hrole (reachable_consistent e hreach)

/-- Witness for C4 at a fresh two-role event. -/
theorem toggle_matches_spec_witness :
    role_signup_callback (mk_event ["Tank", "Healer"] 1 0) "Tank" "alice" =
      toggle_slot_spec (mk_event ["Tank", "Healer"] 1 0) "Tank" "alice" :=
  toggle_matches_spec (mk_event ["Tank", "Healer"] 1 0) "Tank" "alice"
    (ReachableEvent.created ["Tank", "Healer"] 1 0 (by decide)) rfl (by decide)
